/-
Verification of the answer-synthesis pipeline in
`src/server/bleep/src/webserver/answer.rs` (bloop).

The Rust handler is shallowly embedded: scores (`f32`) are modelled as
`Score` (either NaN or an exact rational; only comparisons of scores are
performed by the pipeline, and `f32::partial_cmp` is `None` exactly when one
operand is NaN, a total order on the values occurring otherwise), byte
offsets and machine integers as `Nat`, file content as `List Char`, strings
as `String`, fallible or panicking steps as `Option`/`Except`, and the
external collaborators (completion service, file index, tokenizer) as
explicitly passed oracles.
-/
import Mathlib

namespace BloopAnswer

/-- Model of an `f32` score as produced by the search backend: either NaN or
an exact value. The pipeline only ever compares scores, so an exact rational
carrier is faithful for every non-NaN comparison. -/
inductive Score where
  | nan : Score
  | val (q : ℚ) : Score
deriving DecidableEq

/-- Model of `f32::partial_cmp`: `None` iff either operand is NaN, otherwise
the total comparison of the values. -/
def Score.pcmp : Score → Score → Option Ordering
  | Score.val a, Score.val b => some (compare a b)
  | _, _ => none

theorem Score.pcmp_nan_left (s : Score) : Score.pcmp Score.nan s = none := rfl

theorem Score.pcmp_nan_right (s : Score) : Score.pcmp s Score.nan = none := by
  cases s <;> rfl

/-- `api::Snippet` from `answer.rs` (lines 25-36); `usize` fields as `Nat`. -/
structure Snippet where
  lang : String
  repo_name : String
  repo_ref : String
  relative_path : String
  text : String
  start_line : Nat
  end_line : Nat
  start_byte : Nat
  end_byte : Nat
  score : Score
deriving DecidableEq

instance : Inhabited Snippet :=
  ⟨⟨"", "", "", "", "", 0, 0, 0, 0, Score.val 0⟩⟩

/-- `api::DecodedResponse` (lines 39-42); `u32` index as `Nat`. -/
structure DecodedResponse where
  index : Nat
  answer : String
deriving DecidableEq

/-- `api::Response` (lines 45-49). -/
structure ApiResponse where
  data : DecodedResponse
  id : String
deriving DecidableEq

/-- `AnswerResponse` (lines 65-68). -/
structure AnswerResponse where
  snippets : List Snippet
  selection : ApiResponse
deriving DecidableEq

/-- `SNIPPET_COUNT` (line 70). -/
def SNIPPET_COUNT : Nat := 15

/-!
## An `Option`-valued stable sort

`Vec::sort_by` is a stable sort driven by a comparator.  In `answer.rs` two
comparators occur: `a.end_line.cmp(&b.end_line)` (total) and
`a.score.partial_cmp(&b.score).unwrap()`, which panics when a compared score
is NaN.  We model `sort_by` as an insertion sort whose comparator returns
`Option Ordering`; `none` from the comparator (a panicking comparison)
makes the whole sort return `none`.  Two stable sorts driven by the same
total comparator agree, so on panic-free inputs this is exactly the result
of `Vec::sort_by`; and the sort of a list of length `≥ 2` invokes its
comparator on at least one pair involving each element (its position could
not be determined otherwise) while the sort of a shorter list invokes it on
no pair, which the lemma `sortByOpt_eq_none_iff` below reflects.
-/

/-- Insert `x` into `l`, placing it before the first element `y` with
`cmp x y ≠ gt` (so before equal elements: `x` comes from earlier in the
input, giving stability); `none` if a needed comparison panics. -/
def insertOpt (cmp : α → α → Option Ordering) (x : α) : List α → Option (List α)
  | [] => some [x]
  | y :: ys =>
    match cmp x y with
    | none => none
    | some Ordering.gt => (insertOpt cmp x ys).map (fun zs => y :: zs)
    | some _ => some (x :: y :: ys)

/-- The `Option`-valued stable sort modelling `Vec::sort_by`. -/
def sortByOpt (cmp : α → α → Option Ordering) : List α → Option (List α)
  | [] => some []
  | x :: xs => (sortByOpt cmp xs).bind (insertOpt cmp x)

/-- A comparator induced by a key function into a linear order. -/
def keyCmp (k : α → β) [LinearOrder β] (a b : α) : Option Ordering :=
  some (compare (k a) (k b))

/-- The end-line comparator of the overlap resolver
(`|a, b| a.end_line.cmp(&b.end_line)`, line 145). -/
def cmpEnd (a b : Snippet) : Option Ordering :=
  some (compare a.end_line b.end_line)

/-- The score comparator (`a.score.partial_cmp(&b.score).unwrap()`,
lines 175 and 188); `none` models the `unwrap` panic on NaN. -/
def cmpScore (a b : Snippet) : Option Ordering :=
  Score.pcmp a.score b.score

theorem cmpEnd_eq_keyCmp : cmpEnd = keyCmp (fun s => s.end_line) := rfl

section SortLemmas

variable {α β : Type _} [LinearOrder β]

theorem insertOpt_perm {cmp : α → α → Option Ordering} {x : α} :
    ∀ {l m : List α}, insertOpt cmp x l = some m → m.Perm (x :: l) := by
  intro l
  induction l with
  | nil => intro m h; simp [insertOpt] at h; simp [← h]
  | cons y ys ih =>
    intro m h
    simp only [insertOpt] at h
    cases hc : cmp x y with
    | none => simp [hc] at h
    | some o =>
      cases o with
      | gt =>
        simp only [hc] at h
        cases hrec : insertOpt cmp x ys with
        | none => simp [hrec] at h
        | some zs =>
          simp [hrec] at h
          subst h
          exact ((ih hrec).cons y).trans (List.Perm.swap x y ys)
      | lt => simp only [hc] at h; simp at h; simp [← h]
      | eq => simp only [hc] at h; simp at h; simp [← h]

theorem sortByOpt_perm {cmp : α → α → Option Ordering} :
    ∀ {l r : List α}, sortByOpt cmp l = some r → r.Perm l := by
  intro l
  induction l with
  | nil => intro r h; simp [sortByOpt] at h; simp [← h]
  | cons x xs ih =>
    intro r h
    simp only [sortByOpt] at h
    cases hs : sortByOpt cmp xs with
    | none => simp [hs] at h
    | some t =>
      simp [hs] at h
      exact (insertOpt_perm h).trans ((ih hs).cons x)

theorem insertOpt_keyCmp_isSome (k : α → β) (x : α) :
    ∀ l : List α, ∃ m, insertOpt (keyCmp k) x l = some m := by
  intro l
  induction l with
  | nil => exact ⟨[x], rfl⟩
  | cons y ys ih =>
    obtain ⟨m, hm⟩ := ih
    cases hc : compare (k x) (k y) with
    | gt => exact ⟨y :: m, by simp [insertOpt, keyCmp, hc, hm]⟩
    | lt => exact ⟨x :: y :: ys, by simp [insertOpt, keyCmp, hc]⟩
    | eq => exact ⟨x :: y :: ys, by simp [insertOpt, keyCmp, hc]⟩

theorem sortByOpt_keyCmp_isSome (k : α → β) :
    ∀ l : List α, ∃ r, sortByOpt (keyCmp k) l = some r := by
  intro l
  induction l with
  | nil => exact ⟨[], rfl⟩
  | cons x xs ih =>
    obtain ⟨t, ht⟩ := ih
    obtain ⟨m, hm⟩ := insertOpt_keyCmp_isSome k x t
    exact ⟨m, by simp [sortByOpt, ht, hm]⟩

theorem insertOpt_keyCmp_sorted (k : α → β) (x : α) :
    ∀ {l m : List α}, List.Sorted (fun a b => k a ≤ k b) l →
      insertOpt (keyCmp k) x l = some m →
      List.Sorted (fun a b => k a ≤ k b) m := by
  intro l
  induction l with
  | nil =>
    intro m _ h; simp [insertOpt] at h; simp [← h]
  | cons y ys ih =>
    intro m hs h
    simp only [insertOpt, keyCmp] at h
    rcases List.sorted_cons.mp hs with ⟨hy, hys⟩
    cases hc : compare (k x) (k y) with
    | gt =>
      simp only [hc] at h
      cases hrec : insertOpt (keyCmp k) x ys with
      | none => simp [hrec] at h
      | some zs =>
        simp [hrec] at h
        subst h
        have hyx : k y < k x := by
          have := compare_gt_iff_gt.mp hc; exact this
        refine List.sorted_cons.mpr ⟨?_, ih hys hrec⟩
        intro b hb
        have hmem : b ∈ x :: ys := (insertOpt_perm hrec).mem_iff.mp hb
        rcases List.mem_cons.mp hmem with hbx | hbys
        · subst hbx; exact le_of_lt hyx
        · exact hy b hbys
    | lt =>
      rw [hc] at h
      have hm : x :: y :: ys = m := Option.some.inj h
      subst hm
      have hxy : k x ≤ k y := le_of_lt (compare_lt_iff_lt.mp hc)
      refine List.sorted_cons.mpr ⟨?_, hs⟩
      intro b hb
      rcases List.mem_cons.mp hb with hby | hbys
      · subst hby; exact hxy
      · exact hxy.trans (hy b hbys)
    | eq =>
      rw [hc] at h
      have hm : x :: y :: ys = m := Option.some.inj h
      subst hm
      have hxy : k x ≤ k y := le_of_eq (compare_eq_iff_eq.mp hc)
      refine List.sorted_cons.mpr ⟨?_, hs⟩
      intro b hb
      rcases List.mem_cons.mp hb with hby | hbys
      · subst hby; exact hxy
      · exact hxy.trans (hy b hbys)

theorem sortByOpt_keyCmp_sorted (k : α → β) :
    ∀ {l r : List α}, sortByOpt (keyCmp k) l = some r →
      List.Sorted (fun a b => k a ≤ k b) r := by
  intro l
  induction l with
  | nil => intro r h; simp [sortByOpt] at h; subst h; exact List.sorted_nil
  | cons x xs ih =>
    intro r h
    simp only [sortByOpt] at h
    cases hs : sortByOpt (keyCmp k) xs with
    | none => simp [hs] at h
    | some t => simp [hs] at h; exact insertOpt_keyCmp_sorted k x (ih hs) h

theorem insertOpt_keyCmp_filter [DecidableEq β] (k : α → β) (x : α) (K : β) :
    ∀ {l m : List α}, insertOpt (keyCmp k) x l = some m →
      m.filter (fun z => decide (k z = K)) =
        (x :: l).filter (fun z => decide (k z = K)) := by
  intro l
  induction l with
  | nil => intro m h; simp [insertOpt] at h; simp [← h]
  | cons y ys ih =>
    intro m h
    simp only [insertOpt, keyCmp] at h
    cases hc : compare (k x) (k y) with
    | gt =>
      simp only [hc] at h
      cases hrec : insertOpt (keyCmp k) x ys with
      | none => simp [hrec] at h
      | some zs =>
        simp [hrec] at h
        subst h
        have hyx : k y < k x := compare_gt_iff_gt.mp hc
        have hstep := ih hrec
        by_cases hxK : k x = K
        · have hyK : ¬ k y = K := by
            intro hyK; rw [hxK] at hyx; rw [hyK] at hyx; exact lt_irrefl K hyx
          simp [List.filter_cons, hxK, hyK, hstep]
        · simp [List.filter_cons, hxK, hstep]
    | lt =>
      rw [hc] at h
      have hm : x :: y :: ys = m := Option.some.inj h
      subst hm; rfl
    | eq =>
      rw [hc] at h
      have hm : x :: y :: ys = m := Option.some.inj h
      subst hm; rfl

theorem sortByOpt_keyCmp_filter [DecidableEq β] (k : α → β) (K : β) :
    ∀ {l r : List α}, sortByOpt (keyCmp k) l = some r →
      r.filter (fun z => decide (k z = K)) =
        l.filter (fun z => decide (k z = K)) := by
  intro l
  induction l with
  | nil => intro r h; simp [sortByOpt] at h; simp [← h]
  | cons x xs ih =>
    intro r h
    simp only [sortByOpt] at h
    cases hs : sortByOpt (keyCmp k) xs with
    | none => simp [hs] at h
    | some t =>
      simp [hs] at h
      rw [insertOpt_keyCmp_filter k x K h]
      simp only [List.filter_cons]
      rw [ih hs]

theorem insertOpt_congr {cmp₁ cmp₂ : α → α → Option Ordering} {x : α} :
    ∀ {l : List α}, (∀ y ∈ l, cmp₁ x y = cmp₂ x y) →
      insertOpt cmp₁ x l = insertOpt cmp₂ x l := by
  intro l
  induction l with
  | nil => intro _; rfl
  | cons y ys ih =>
    intro hcong
    simp only [insertOpt]
    rw [hcong y (List.mem_cons_self y ys)]
    cases cmp₂ x y with
    | none => rfl
    | some o =>
      cases o <;> simp only []
      rw [ih (fun z hz => hcong z (List.mem_cons_of_mem y hz))]

theorem sortByOpt_congr {cmp₁ cmp₂ : α → α → Option Ordering} :
    ∀ {l : List α}, (∀ a ∈ l, ∀ b ∈ l, cmp₁ a b = cmp₂ a b) →
      sortByOpt cmp₁ l = sortByOpt cmp₂ l := by
  intro l
  induction l with
  | nil => intro _; rfl
  | cons x xs ih =>
    intro hcong
    simp only [sortByOpt]
    rw [ih (fun a ha b hb =>
      hcong a (List.mem_cons_of_mem x ha) b (List.mem_cons_of_mem x hb))]
    cases hs : sortByOpt cmp₂ xs with
    | none => rfl
    | some t =>
      simp only [Option.some_bind]
      refine insertOpt_congr ?_
      intro y hy
      have : y ∈ xs := (sortByOpt_perm hs).subset hy
      exact hcong x (List.mem_cons_self x xs) y (List.mem_cons_of_mem x this)

end SortLemmas

/-- The score of a non-NaN snippet as a rational (junk value `0` on NaN;
only used on NaN-free lists). -/
def scoreVal (s : Snippet) : ℚ :=
  match s.score with
  | Score.nan => 0
  | Score.val q => q

theorem cmpScore_eq_keyCmp_of_no_nan {l : List Snippet}
    (h : ∀ x ∈ l, x.score ≠ Score.nan) :
    ∀ a ∈ l, ∀ b ∈ l, cmpScore a b = keyCmp scoreVal a b := by
  intro a ha b hb
  rcases hsa : a.score with _ | qa
  · exact absurd hsa (h a ha)
  · rcases hsb : b.score with _ | qb
    · exact absurd hsb (h b hb)
    · simp [cmpScore, Score.pcmp, hsa, hsb, keyCmp, scoreVal]

theorem sortByOpt_cmpScore_isSome_of_no_nan {l : List Snippet}
    (h : ∀ x ∈ l, x.score ≠ Score.nan) :
    ∃ r, sortByOpt cmpScore l = some r := by
  obtain ⟨r, hr⟩ := sortByOpt_keyCmp_isSome scoreVal l
  exact ⟨r, by rw [sortByOpt_congr (cmpScore_eq_keyCmp_of_no_nan h)]; exact hr⟩

/-- The score sort panics exactly when the sorted list has at least two
elements and contains a NaN score: every element of a list of length `≥ 2`
is compared at least once, each comparison with a NaN panics, and
singleton or empty sorts perform no comparison. -/
theorem sortByOpt_cmpScore_eq_none_iff (l : List Snippet) :
    sortByOpt cmpScore l = none ↔
      (∃ x ∈ l, x.score = Score.nan) ∧ 2 ≤ l.length := by
  constructor
  · intro h
    by_cases hnan : ∃ x ∈ l, x.score = Score.nan
    · refine ⟨hnan, ?_⟩
      by_contra hlen
      push_neg at hlen
      rcases l with _ | ⟨x, _ | ⟨y, ys⟩⟩
      · simp [sortByOpt] at h
      · simp [sortByOpt, insertOpt] at h
      · simp at hlen; omega
    · push_neg at hnan
      obtain ⟨r, hr⟩ := sortByOpt_cmpScore_isSome_of_no_nan hnan
      rw [hr] at h; exact absurd h (by simp)
  · intro ⟨⟨x, hxl, hx⟩, hlen⟩
    induction l with
    | nil => simp at hlen
    | cons a as ih =>
      simp only [sortByOpt]
      rcases List.mem_cons.mp hxl with hxa | hxas
      · -- the NaN element is the head; `as` is nonempty
        subst hxa
        cases has : sortByOpt cmpScore as with
        | none => simp [has]
        | some t =>
          have htne : t ≠ [] := by
            intro ht
            have hperm := sortByOpt_perm has
            rw [ht] at hperm
            have hase : as = [] := hperm.symm.eq_nil
            rw [hase] at hlen; simp at hlen
          obtain ⟨y, ys, hty⟩ := List.exists_cons_of_ne_nil htne
          subst hty
          simp [has, insertOpt, cmpScore, hx, Score.pcmp_nan_left]
      · -- the NaN element is in the tail
        rcases Nat.lt_or_ge as.length 2 with hl2 | hl2
        · -- then `as = [x]` and inserting `a` compares against the NaN
          have has1 : as.length = 1 :=
            Nat.le_antisymm (Nat.lt_succ_iff.mp hl2)
              (List.length_pos_of_mem hxas)
          obtain ⟨z, hz⟩ := List.length_eq_one.mp has1
          subst hz
          have hzx : x = z := by simpa using hxas
          subst hzx
          simp [sortByOpt, insertOpt, cmpScore, hx, Score.pcmp_nan_right]
        · have := ih hxas hl2
          simp [this]

/-!
## Decoding the search-backend payload (`handle`, lines 88-134)

`value_to_string` panics (via `unwrap` / `panic!`) when a payload value is
absent or not a string; the numeric fields additionally go through
`str::parse::<usize>().unwrap()`.  Each panic is modelled as `none`.
-/

/-- `qdrant_client::qdrant::value::Kind`, restricted to what the code
distinguishes: a string value or anything else. -/
inductive QKind where
  | stringValue (s : String) : QKind
  | otherValue : QKind
deriving DecidableEq

/-- A qdrant `Value`: its `kind` field is a protobuf optional. -/
structure QValue where
  kind : Option QKind
deriving DecidableEq

/-- One search result: a payload map (association list with distinct keys)
plus the `f32` score. -/
structure SearchResult where
  payload : List (String × QValue)
  score : Score
deriving DecidableEq

/-- `HashMap::remove(key).unwrap()`: `none` models the panic on a missing
key (later removals are of distinct keys, so plain lookup is faithful). -/
def payloadRemove (p : List (String × QValue)) (key : String) : Option QValue :=
  (p.find? (fun kv => kv.1 = key)).map (fun kv => kv.2)

/-- `value_to_string` (lines 91-96): `none` models both the `unwrap` panic
on an absent `kind` and the `panic!` on a non-string value. -/
def value_to_string (v : QValue) : Option String :=
  match v.kind with
  | some (QKind.stringValue s) => some s
  | _ => none

/-- Decimal value of a digit list. -/
def digitsToNat (l : List Char) : Nat :=
  l.foldl (fun n c => n * 10 + (c.toNat - 48)) 0

/-- `str::parse::<usize>`: an optional leading `+` followed by one or more
ascii digits (overflow is not tracked; no claim depends on it). -/
def parseUsize (s : String) : Option Nat :=
  let t := match s.data with
    | Char.ofNat 43 :: rest => rest
    | l => l
  if t ≠ [] ∧ t.all Char.isDigit then some (digitsToNat t) else none

/-- `str::trim`: strip leading and trailing whitespace. -/
def rustTrim (s : String) : String :=
  String.mk (((s.data.dropWhile Char.isWhitespace).reverse.dropWhile
    Char.isWhitespace).reverse)

/-- Decoding one search result into `(relative_path, Snippet)`
(lines 88-134); `none` models a decode panic. -/
def decodeResult (r : SearchResult) : Option (String × Snippet) := do
  let lang ← (payloadRemove r.payload "lang").bind value_to_string
  let repo_name ← (payloadRemove r.payload "repo_name").bind value_to_string
  let repo_ref ← (payloadRemove r.payload "repo_ref").bind value_to_string
  let relative_path ← (payloadRemove r.payload "relative_path").bind value_to_string
  let text ← (payloadRemove r.payload "snippet").bind value_to_string
  let score := r.score
  let start_line ← ((payloadRemove r.payload "start_line").bind value_to_string).bind parseUsize
  let end_line ← ((payloadRemove r.payload "end_line").bind value_to_string).bind parseUsize
  let start_byte ← ((payloadRemove r.payload "start_byte").bind value_to_string).bind parseUsize
  let end_byte ← ((payloadRemove r.payload "end_byte").bind value_to_string).bind parseUsize
  pure (relative_path,
    { lang, repo_name, repo_ref, relative_path, text,
      start_line, end_line, start_byte, end_byte, score })

/-- Effectful map over a list in the `Option` monad: the first decode panic
aborts everything (the iterator is consumed by the grouping fold, so a
panicking element prevents any further processing). -/
def mapMOpt (f : α → Option β) : List α → Option (List β)
  | [] => some []
  | x :: xs =>
    match f x, mapMOpt f xs with
    | some y, some ys => some (y :: ys)
    | _, _ => none

theorem mapMOpt_eq_none_of_mem {f : α → Option β} {x : α} :
    ∀ (l₁ l₂ : List α), f x = none → mapMOpt f (l₁ ++ x :: l₂) = none := by
  intro l₁
  induction l₁ with
  | nil => intro l₂ h; simp [mapMOpt, h]
  | cons a as ih =>
    intro l₂ h
    have hrec := ih l₂ h
    rw [List.cons_append]
    cases hfa : f a with
    | none => simp [mapMOpt, hfa]
    | some y => simp [mapMOpt, hfa, hrec]

theorem mapMOpt_eq_none_iff {f : α → Option β} :
    ∀ {l : List α}, mapMOpt f l = none ↔ ∃ x ∈ l, f x = none := by
  intro l
  induction l with
  | nil => simp [mapMOpt]
  | cons a as ih =>
    simp only [mapMOpt]
    cases ha : f a with
    | none => simp [ha]
    | some y =>
      cases has : mapMOpt f as with
      | none => simp only [has]; simp [ha, ih.mp has]
      | some ys =>
        simp only [has]
        constructor
        · intro h; exact absurd h (by simp)
        · rintro ⟨x, hx, hfx⟩
          rcases List.mem_cons.mp hx with h | h
          · subst h; rw [ha] at hfx; exact absurd hfx (by simp)
          · have : mapMOpt f as = none := ih.mpr ⟨x, h, hfx⟩
            rw [has] at this; exact absurd this (by simp)

/-- The grouping fold (lines 135-140): `HashMap::entry(path)`, pushing the
snippet onto the group for its path.  The `HashMap` iteration order is
unspecified in Rust; the model fixes insertion order, which no claim
depends on. -/
def insertGroup : List (String × List Snippet) → String → Snippet →
    List (String × List Snippet)
  | [], path, s => [(path, [s])]
  | (q, v) :: rest, path, s =>
    if q = path then (q, v ++ [s]) :: rest
    else (q, v) :: insertGroup rest path s

/-- `snippets_by_file`: group the decoded `(path, snippet)` pairs by path. -/
def groupByFile (pairs : List (String × Snippet)) : List (String × List Snippet) :=
  pairs.foldl (fun m ps => insertGroup m ps.1 ps.2) []

/-!
## The overlap resolver (`handle`, lines 143-176)

The source sorts each group by `end_line`, then runs a `for` loop over
indices `1..s.len()` maintaining `selected_indices` (pushed, read only via
`last()`, so modelled with the most recent index at the head) and
`rejected_indices` (pushed in ascending order), then reverses
`rejected_indices` and `Vec::remove`s those positions, then sorts by score.
-/

/-- One iteration of the overlap loop (lines 152-166); `s` is the end-line
sorted vector, which the loop only reads.  In-range indexing is total here
(`getD` with a junk default); the loop only ever produces in-range
indices. -/
def overlapStep (s : List Snippet) (acc : List Nat × List Nat) (next_idx : Nat) :
    List Nat × List Nat :=
  let previous_idx := acc.1.headD 0
  let previous_item := s.getD previous_idx default
  let next_item := s.getD next_idx default
  if next_item.start_line ≤ previous_item.end_line then
    (acc.1, acc.2 ++ [next_idx])
  else
    (next_idx :: acc.1, acc.2)

/-- The overlap loop (`for next_idx in 1..s.len()`), started with
`selected_indices = vec![0]`, `rejected_indices = vec![]`.  Returns
(selected, rejected); `selected` holds its most recent element first. -/
def overlapFold (s : List Snippet) : List Nat × List Nat :=
  (List.range' 1 (s.length - 1)).foldl (overlapStep s) ([0], [])

/-- Lines 170-173: reverse the rejected indices and `Vec::remove` each
(`List.eraseIdx`), largest index first so positions do not shift. -/
def removeRejected (s : List Snippet) (rejected : List Nat) : List Snippet :=
  rejected.reverse.foldl (fun v idx => v.eraseIdx idx) s

/-- The whole per-file overlap resolution (lines 143-176): skip empty
groups (the `filter` on line 143), sort ascending by `end_line`, run the
greedy loop, remove rejected, sort ascending by score (`none` = the score
sort panicked on a NaN). -/
def dedupVec (s : List Snippet) : Option (List Snippet) :=
  if s.isEmpty then some s
  else
    match sortByOpt cmpEnd s with
    | none => none
    | some sorted =>
      let rejected_indices := (overlapFold sorted).2
      sortByOpt cmpScore (removeRejected sorted rejected_indices)

/-!
### Declarative description of the greedy scan

`greedyKeep` keeps the first element and then each element whose
`start_line` strictly exceeds the `end_line` of the most recently kept
element.  `dedupVec_eq_greedy` below proves the imperative index-juggling
loop equal to it.
-/

/-- Keep `y` iff `prev.end_line < y.start_line`, where `prev` is the most
recently kept element. -/
def greedyGo (prev : Snippet) : List Snippet → List Snippet
  | [] => []
  | y :: ys =>
    if y.start_line ≤ prev.end_line then greedyGo prev ys
    else y :: greedyGo y ys

/-- The first element is always kept. -/
def greedyKeep : List Snippet → List Snippet
  | [] => []
  | x :: xs => x :: greedyGo x xs

/-- The rejected indices produced by scanning `idxs` with most recently
kept index `p`: index `k` is rejected iff `s[k].start_line ≤
s[p].end_line`. -/
def scanRej (s : List Snippet) (p : Nat) : List Nat → List Nat
  | [] => []
  | k :: ks =>
    if (s.getD k default).start_line ≤ (s.getD p default).end_line then
      k :: scanRej s p ks
    else
      scanRej s k ks

theorem overlapFold_snd_eq_scanRej (s : List Snippet) :
    ∀ (idxs : List Nat) (p : Nat) (sel rej : List Nat),
      (idxs.foldl (overlapStep s) (p :: sel, rej)).2 = rej ++ scanRej s p idxs := by
  intro idxs
  induction idxs with
  | nil => intro p sel rej; simp [scanRej]
  | cons k ks ih =>
    intro p sel rej
    simp only [List.foldl_cons, overlapStep, scanRej]
    by_cases hover : (s.getD k default).start_line ≤ (s.getD p default).end_line
    · simp only [List.headD_cons, hover, if_true]
      rw [ih p sel (rej ++ [k])]
      simp
    · simp only [List.headD_cons, hover, if_false]
      rw [ih k (p :: sel) rej]

theorem eraseIdx_append_cons (l₁ : List α) (x : α) (l₂ : List α) :
    (l₁ ++ x :: l₂).eraseIdx l₁.length = l₁ ++ l₂ := by
  induction l₁ with
  | nil => rfl
  | cons a as ih =>
    simp only [List.cons_append, List.length_cons, List.eraseIdx_cons_succ, ih]

theorem getD_eq_getElem_of_lt (l : List α) (d : α) {n : Nat} (h : n < l.length) :
    l.getD n d = l[n] := by
  simp [List.getD_eq_getElem?_getD, List.getElem?_eq_getElem h]

theorem take_succ_of_lt (l : List α) {n : Nat} (h : n < l.length) :
    l.take (n + 1) = l.take n ++ [l[n]] := by
  rw [List.take_succ, List.getElem?_eq_getElem h]
  rfl

theorem removeRejected_cons (s : List Snippet) (k : Nat) (rest : List Nat) :
    removeRejected s (k :: rest) = (removeRejected s rest).eraseIdx k := by
  simp [removeRejected, List.reverse_cons, List.foldl_append]

/-- Core correspondence: removing the indices rejected while scanning from
position `k` (with most recently kept index `p < k`) leaves the prefix
before `k` intact and applies the declarative greedy filter to the
suffix. -/
theorem removeRejected_scanRej (s : List Snippet) :
    ∀ (m k p : Nat), p < k → k + m = s.length →
      removeRejected s (scanRej s p (List.range' k m)) =
        s.take k ++ greedyGo (s.getD p default) (s.drop k) := by
  intro m
  induction m with
  | zero =>
    intro k p _ hk
    simp only [Nat.add_zero] at hk
    have h1 : s.take k = s := List.take_of_length_le (le_of_eq hk.symm)
    have h2 : s.drop k = [] := List.drop_eq_nil_of_le (le_of_eq hk.symm)
    simp [scanRej, removeRejected, h1, h2, greedyGo]
  | succ m ih =>
    intro k p hpk hk
    have hklen : k < s.length := by omega
    have hdrop : s.drop k = s.getD k default :: s.drop (k + 1) := by
      rw [getD_eq_getElem_of_lt s default hklen]
      exact List.drop_eq_getElem_cons hklen
    have htake : s.take (k + 1) = s.take k ++ [s.getD k default] := by
      rw [getD_eq_getElem_of_lt s default hklen]
      exact take_succ_of_lt s hklen
    rw [List.range'_succ]
    simp only [scanRej]
    by_cases hover : (s.getD k default).start_line ≤ (s.getD p default).end_line
    · simp only [hover, if_true]
      rw [removeRejected_cons, ih (k + 1) p (by omega) (by omega)]
      rw [htake, hdrop]
      simp only [greedyGo, hover, if_true]
      rw [List.append_assoc, List.singleton_append]
      have hlen : (s.take k).length = k := by
        simp [List.length_take]
        omega
      have herase := eraseIdx_append_cons (s.take k) (s.getD k default)
        (greedyGo (s.getD p default) (s.drop (k + 1)))
      rw [hlen] at herase
      exact herase
    · simp only [hover, if_false]
      rw [ih (k + 1) k (by omega) (by omega)]
      rw [htake, hdrop]
      simp only [greedyGo, hover, if_false]
      simp

/-- The imperative overlap resolution equals end-line sort followed by the
declarative greedy filter followed by the score sort. -/
theorem dedupVec_eq_greedy (s : List Snippet) :
    dedupVec s =
      (sortByOpt cmpEnd s).bind (fun t => sortByOpt cmpScore (greedyKeep t)) := by
  by_cases hse : s.isEmpty
  · have : s = [] := List.isEmpty_iff.mp hse
    subst this
    simp [dedupVec, sortByOpt, greedyKeep]
  · simp only [dedupVec, hse, if_false]
    rw [cmpEnd_eq_keyCmp]
    obtain ⟨t, ht⟩ := sortByOpt_keyCmp_isSome (fun s : Snippet => s.end_line) s
    rw [ht]
    simp only [Option.some_bind]
    have htne : t ≠ [] := by
      intro h0
      have hperm := sortByOpt_perm ht
      rw [h0] at hperm
      have hnil : s = [] := hperm.symm.eq_nil
      subst hnil
      simp at hse
    obtain ⟨x, xs, rfl⟩ := List.exists_cons_of_ne_nil htne
    have hfold : (overlapFold (x :: xs)).2 =
        scanRej (x :: xs) 0 (List.range' 1 xs.length) := by
      have hf := overlapFold_snd_eq_scanRej (x :: xs)
        (List.range' 1 ((x :: xs).length - 1)) 0 [] []
      simpa [overlapFold] using hf
    rw [hfold,
      removeRejected_scanRej (x :: xs) xs.length 1 0 (by omega)
        (by simp; omega)]
    simp [greedyKeep]

/-!
## The context grower (`grow`, lines 304-323)

File content is a `List Char` and byte offsets are positions into it;
`rmatch_indices('\n')` enumerates newline positions right to left and
`match_indices('\n')` left to right, with `Iterator::nth(size)` the
zero-based `size`-th element.
-/

/-- The ascending positions of `'\n'` in `l`. -/
def nlIdxs (l : List Char) : List Nat :=
  (List.range l.length).filter (fun i => decide (l.getD i ' ' = Char.ofNat 10))

/-- The new byte range computed by `grow`: scan backward from `start_byte`
for the `size`-th newline (`unwrap_or(0)`), scan forward from `end_byte`
for the `size`-th newline (`unwrap_or(content.len())`, after shifting the
in-suffix index by `end_byte`). -/
def growRange (content : List Char) (snippet : Snippet) (size : Nat) : Nat × Nat :=
  let new_start_byte :=
    (((nlIdxs (content.take snippet.start_byte)).reverse)[size]?).getD 0
  let new_end_byte :=
    (((nlIdxs (content.drop snippet.end_byte))[size]?).map
      (fun i => i + snippet.end_byte)).getD content.length
  (new_start_byte, new_end_byte)

/-- `grow` (lines 304-323): the slice
`content[new_start_byte..new_end_byte]`. -/
def grow (content : List Char) (snippet : Snippet) (size : Nat) : String :=
  let r := growRange content snippet size
  String.mk ((content.take r.2).drop r.1)

theorem mem_nlIdxs_lt {l : List Char} {i : Nat} (h : i ∈ nlIdxs l) :
    i < l.length := by
  have := List.mem_filter.mp h
  exact List.mem_range.mp this.1

/-- The growth loop (lines 235-245): each iteration recomputes `grow` from
the unmodified snippet offsets at the current window size, stopping after
the first computation whose token count exceeds 2000 or whose window size
exceeds 100; otherwise the window size increases by 10.  Returns the list
of window sizes at which `grow` was invoked together with the final grown
text. -/
def growLoopAux (tok : String → Nat) (content : List Char) (snippet : Snippet)
    (grow_size : Nat) : List Nat × String :=
  let grown_text := grow content snippet grow_size
  let token_count := tok grown_text
  if h : 2000 < token_count ∨ 100 < grow_size then
    ([grow_size], grown_text)
  else
    let r := growLoopAux tok content snippet (grow_size + 10)
    (grow_size :: r.1, r.2)
termination_by 111 - grow_size
decreasing_by
  simp only [not_or, not_lt] at h
  omega

/-- `let mut grow_size = 40; loop { ... }` (lines 235-245). -/
def growLoop (tok : String → Nat) (content : List Char) (snippet : Snippet) :
    List Nat × String :=
  growLoopAux tok content snippet 40

/-- Full characterisation of the growth loop from any starting size
`g ≤ 110`: some number `n ≥ 1` of iterations runs, at window sizes
`g, g+10, …, g+10(n-1) ≤ 110`; the final text is the grow at the last
size; the stop condition holds at the last size and fails at all earlier
ones. -/
theorem growLoopAux_spec (tok : String → Nat) (content : List Char)
    (snippet : Snippet) :
    ∀ (fuel g : Nat), 111 - g ≤ fuel → g ≤ 110 →
      ∃ n, 1 ≤ n ∧ g + 10 * (n - 1) ≤ 110 ∧
        (growLoopAux tok content snippet g).1 = List.range' g n 10 ∧
        (growLoopAux tok content snippet g).2 =
          grow content snippet (g + 10 * (n - 1)) ∧
        (2000 < tok (grow content snippet (g + 10 * (n - 1))) ∨
          100 < g + 10 * (n - 1)) ∧
        (∀ i, i + 1 < n →
          ¬(2000 < tok (grow content snippet (g + 10 * i)) ∨
            100 < g + 10 * i)) := by
  intro fuel
  induction fuel with
  | zero => intro g hf hg; omega
  | succ fuel ih =>
    intro g hf hg
    rw [growLoopAux]
    by_cases h : 2000 < tok (grow content snippet g) ∨ 100 < g
    · refine ⟨1, le_refl 1, by omega, ?_, ?_, ?_, ?_⟩
      · simp [h, List.range'_one]
      · simp [h]
      · simpa using h
      · intro i hi; omega
    · have hg100 : g ≤ 100 := by
        rcases not_or.mp h with ⟨_, h2⟩
        omega
      obtain ⟨n, hn1, hnb, hsz, htx, hstop, hbefore⟩ :=
        ih (g + 10) (by omega) (by omega)
      refine ⟨n + 1, by omega, ?_, ?_, ?_, ?_, ?_⟩
      · have : g + 10 + 10 * (n - 1) = g + 10 * (n + 1 - 1) := by omega
        omega
      · simp only [h, dif_neg, not_false_iff]
        rw [hsz, List.range'_succ]
      · simp only [h, dif_neg, not_false_iff]
        rw [htx]
        congr 1
        omega
      · have : g + 10 + 10 * (n - 1) = g + 10 * (n + 1 - 1) := by omega
        rw [← this]
        exact hstop
      · intro i hi
        cases i with
        | zero => simpa using h
        | succ j =>
          have : g + 10 * (j + 1) = g + 10 + 10 * j := by omega
          rw [this]
          exact hbefore j (by omega)

/-!
## The orchestration (`handle`, lines 72-301)

External collaborators are oracles passed to the embedded handler: the
completion service (`send(prompt, max_tokens)` for selection and
explanation, including the `.text()` decoding step), the `RepoRef` parser,
the file-content index (`by_path`) and the tokenizer
(`gpt2_token_count`).
-/

/-- Outcome of one completion-service call, covering both failure points of
the source chains (the HTTP call itself, with the distinguished
`SERVICE_UNAVAILABLE` status, and the subsequent `.text()` decode). -/
inductive ApiResult where
  | httpErr (unavailable : Bool) (msg : String) : ApiResult
  | textErr (msg : String) : ApiResult
  | okBody (body : String) : ApiResult
deriving DecidableEq

/-- The three error kinds surfaced by the handler. -/
inductive ErrKind where
  | user : ErrKind
  | internal : ErrKind
  | upstream : ErrKind
deriving DecidableEq

/-- Result of the embedded handler: an error response, a success payload,
or a panic (which produces no response at all). -/
inductive HandlerResult where
  | err (k : ErrKind) (msg : String) : HandlerResult
  | ok (resp : AnswerResponse) : HandlerResult
  | panic : HandlerResult
deriving DecidableEq

/-- `true` iff the result is an error response (of any kind). -/
def HandlerResult.isErr : HandlerResult → Bool
  | HandlerResult.err _ _ => true
  | _ => false

/-- The pipeline steps whose execution the embedding records. -/
inductive Stage where
  | selection : Stage
  | growth : Stage
  | explanation : Stage
deriving DecidableEq

/-- External collaborators of one request. -/
structure Oracles where
  selectCall : String → Nat → ApiResult
  explainCall : String → Nat → ApiResult
  repoRefErr : String → Option String
  byPath : String → String → Except String (List Char)
  tokenCount : String → Nat

/-- The error mapping applied to both completion calls (lines 204-216 and
264-273): a `SERVICE_UNAVAILABLE` status becomes the distinguished
upstream-overload error, any other HTTP or `.text()` failure becomes an
internal error with the transport message. -/
def mapApiCall : ApiResult → Except (ErrKind × String) String
  | ApiResult.httpErr true _ =>
    Except.error (ErrKind.upstream, "service is currently overloaded")
  | ApiResult.httpErr false m => Except.error (ErrKind.internal, m)
  | ApiResult.textErr m => Except.error (ErrKind.internal, m)
  | ApiResult.okBody b => Except.ok b

/-- `str::parse::<usize>`: see `parseUsize`; the representative
`ParseIntError` display string used for the internal error message. -/
def parseIntErrorMsg : String := "invalid digit found in string"

/-- `build_select_prompt` (lines 368-400).  The backslash
line-continuations of the Rust string literal join lines without inserting
spaces ("Replywith", "list.If"). -/
def build_select_prompt (query : String) (snippets : List Snippet) : String :=
  String.join (snippets.enum.map (fun is =>
    "Repository: " ++ is.2.repo_name ++ "\nPath: " ++ is.2.relative_path ++
      "\nLanguage: " ++ is.2.lang ++ "\nIndex: " ++ toString is.1 ++
      "\n\n" ++ is.2.text ++ "\n######\n")) ++
  ("Above are " ++ toString snippets.length ++
    " code snippets separated by \"######\". Your job is to select the snippet that best answers the question. Replywith a single number indicating the index of the snippet in the list.If none of the snippets seem relevant, reply with \"0\".\n\nQ:What icon do we use to clear search history?\nA:3\n\nQ:" ++
    query ++ "\nA:")

/-- `build_explain_prompt` (lines 402-421). -/
def build_explain_prompt (query : String) (snippet : Snippet) : String :=
  "File: " ++ snippet.relative_path ++ "\n\n" ++ snippet.text ++
    "\n\n#####\n\nAbove is a code snippet. Answer the user\x27s question with a detailed response. Separate each function out and explain why it is relevant. Format your response in GitHub markdown with code blocks annotatedwith programming language. Include the path of the file.\n\nQ:" ++
    query ++ "\nA:"

/-- Rust `Ord::clamp(lo, hi)` on `usize` (requires `lo ≤ hi`). -/
def natClamp (x lo hi : Nat) : Nat :=
  if x < lo then lo else if hi < x then hi else x

/-- What `explain_snippet` did: whether the zero-budget warning fired, the
`max_tokens` value passed to `send`, and the call outcome. -/
structure ExplainOutcome where
  warned : Bool
  max_tokens : Nat
  response : ApiResult

/-- `explain_snippet` (lines 427-441): compute `tokens_used`, the
saturating budget `4096 - tokens_used`, log (never fail) when it is zero,
clamp into `[1, 500]`, and send the request unconditionally. -/
def explain_snippet (tok : String → Nat) (send : String → Nat → ApiResult)
    (prompt : String) : ExplainOutcome :=
  let tokens_used := tok prompt
  let max_tokens := 4096 - tokens_used
  let warned := decide (max_tokens = 0)
  let max_tokens := natClamp max_tokens 1 500
  { warned := warned, max_tokens := max_tokens,
    response := send prompt max_tokens }

/-- `Vec::swap(a, b)` (line 276).  Out-of-range is impossible at the call
site (`relevant_snippet_index` was bounds-checked by `get`). -/
def swapVec (l : List Snippet) (a b : Nat) : List Snippet :=
  (l.set a (l.getD b default)).set b (l.getD a default)

/-- Lines 276 and 291-300: swap the selected snippet to the front and build
the payload, whose `selection.data.index` is the literal `0u32`. -/
def assemble (snippets : List Snippet) (idx : Nat) (answer user_id : String) :
    AnswerResponse :=
  { snippets := swapVec snippets idx 0,
    selection := { data := { index := 0, answer := answer }, id := user_id } }

/-- The handler from line 191 to the end, given the ranked, truncated
`snippets`.  The empty-sequence check of lines 191-193 evaluates
`super::error(...)` and discards the value — there is no `return`, so the
check never aborts; the discarded value is kept here as a dead binding.
Also returns the list of pipeline stages that ran. -/
def handleAfterRanking (o : Oracles) (user_id query : String)
    (snippets : List Snippet) : HandlerResult × List Stage :=
  let _discarded :=
    if snippets.isEmpty then
      some (HandlerResult.err ErrKind.internal "semantic search returned no snippets")
    else none
  let select_prompt := build_select_prompt query snippets
  match mapApiCall (o.selectCall select_prompt 1) with
  | Except.error km => (HandlerResult.err km.1 km.2, [Stage.selection])
  | Except.ok body =>
    match parseUsize (rustTrim body) with
    | none => (HandlerResult.err ErrKind.internal parseIntErrorMsg, [Stage.selection])
    | some relevant_snippet_index =>
      match snippets.get? relevant_snippet_index with
      | none =>
        (HandlerResult.err ErrKind.internal "answer-api returned out-of-bounds index",
          [Stage.selection])
      | some relevant_snippet =>
        match o.repoRefErr relevant_snippet.repo_ref with
        | some m => (HandlerResult.err ErrKind.internal m, [Stage.selection])
        | none =>
          match o.byPath relevant_snippet.repo_ref relevant_snippet.relative_path with
          | Except.error m => (HandlerResult.err ErrKind.internal m, [Stage.selection])
          | Except.ok content =>
            let gl := growLoop o.tokenCount content relevant_snippet
            let processed_snippet : Snippet := { relevant_snippet with text := gl.2 }
            let explain_prompt := build_explain_prompt query processed_snippet
            let eo := explain_snippet o.tokenCount o.explainCall explain_prompt
            match mapApiCall eo.response with
            | Except.error km =>
              (HandlerResult.err km.1 km.2,
                [Stage.selection, Stage.growth, Stage.explanation])
            | Except.ok snippet_explanation =>
              (HandlerResult.ok
                  (assemble snippets relevant_snippet_index snippet_explanation user_id),
                [Stage.selection, Stage.growth, Stage.explanation])

/-- The handler from the return of the semantic search onward (lines
88-301): decode every payload (a decode failure is a panic), group by
file, resolve overlaps per group (a NaN comparison is a panic), flatten,
sort by score, truncate to `SNIPPET_COUNT`, and continue with
`handleAfterRanking`. -/
def handle (results : List SearchResult) (o : Oracles) (user_id query : String) :
    HandlerResult × List Stage :=
  match mapMOpt decodeResult results with
  | none => (HandlerResult.panic, [])
  | some pairs =>
    match mapMOpt dedupVec ((groupByFile pairs).map Prod.snd) with
    | none => (HandlerResult.panic, [])
    | some deduped =>
      match sortByOpt cmpScore deduped.flatten with
      | none => (HandlerResult.panic, [])
      | some sorted => handleAfterRanking o user_id query (sorted.take SNIPPET_COUNT)

/-!
## Helper lemmas about the assembled pipeline
-/

theorem handleAfterRanking_ne_panic (o : Oracles) (u q : String)
    (s : List Snippet) : (handleAfterRanking o u q s).1 ≠ HandlerResult.panic := by
  intro hpanic
  unfold handleAfterRanking at hpanic
  simp only [] at hpanic
  repeat' split at hpanic
  all_goals simp at hpanic

/-- The overlap resolver panics exactly when the score sort of the kept
subset does (NaN among at least two kept elements). -/
theorem dedupVec_eq_none_iff {g t : List Snippet}
    (h : sortByOpt cmpEnd g = some t) :
    (dedupVec g = none ↔
      (∃ x ∈ greedyKeep t, x.score = Score.nan) ∧ 2 ≤ (greedyKeep t).length) := by
  rw [dedupVec_eq_greedy, h, Option.some_bind]
  exact sortByOpt_cmpScore_eq_none_iff (greedyKeep t)

theorem greedyGo_keep_all :
    ∀ (rest : List Snippet) (prev : Snippet),
      (∀ z ∈ prev :: rest, z.start_line ≤ z.end_line) →
      List.Sorted (fun a b : Snippet => a.end_line ≤ b.end_line) (prev :: rest) →
      List.Pairwise
        (fun a b : Snippet => a.end_line < b.start_line ∨ b.end_line < a.start_line)
        (prev :: rest) →
      greedyGo prev rest = rest := by
  intro rest
  induction rest with
  | nil => intro prev _ _ _; rfl
  | cons y ys ih =>
    intro prev hse hsort hdisj
    have hpy : prev.end_line ≤ y.end_line :=
      (List.sorted_cons.mp hsort).1 y (List.mem_cons_self y ys)
    have hd : prev.end_line < y.start_line ∨ y.end_line < prev.start_line :=
      (List.pairwise_cons.mp hdisj).1 y (List.mem_cons_self y ys)
    have hps : prev.start_line ≤ prev.end_line :=
      hse prev (List.mem_cons_self prev (y :: ys))
    have hkeep : prev.end_line < y.start_line := by
      rcases hd with h | h
      · exact h
      · omega
    rw [greedyGo, if_neg (by omega : ¬ y.start_line ≤ prev.end_line)]
    congr 1
    exact ih y (fun z hz => hse z (List.mem_cons_of_mem prev hz))
      (List.sorted_cons.mp hsort).2 (List.pairwise_cons.mp hdisj).2

/-- The whole handler panics iff some per-file dedup panics or the global
score sort panics. -/
theorem handle_panic_iff {results : List SearchResult}
    {pairs : List (String × Snippet)} (o : Oracles) (u q : String)
    (hdec : mapMOpt decodeResult results = some pairs) :
    ((handle results o u q).1 = HandlerResult.panic ↔
      mapMOpt dedupVec ((groupByFile pairs).map Prod.snd) = none ∨
      (∃ gs, mapMOpt dedupVec ((groupByFile pairs).map Prod.snd) = some gs ∧
        sortByOpt cmpScore gs.flatten = none)) := by
  unfold handle
  rw [hdec]
  simp only []
  generalize hdd : mapMOpt dedupVec ((groupByFile pairs).map Prod.snd) = dd
  cases dd with
  | none => simp
  | some gs =>
    generalize hs : sortByOpt cmpScore gs.flatten = ss
    cases ss with
    | none => simp [hs]
    | some sorted =>
      have hne := handleAfterRanking_ne_panic o u q (sorted.take SNIPPET_COUNT)
      simp [hs, hne]

/-- The sortedness relation "not strictly greater by score" that the
embedded score sort establishes. -/
def scoreLe (a b : Snippet) : Prop :=
  ¬ Score.pcmp a.score b.score = some Ordering.gt

theorem scoreLe_of_scoreVal_le {a b : Snippet}
    (ha : a.score ≠ Score.nan) (hb : b.score ≠ Score.nan)
    (h : scoreVal a ≤ scoreVal b) : scoreLe a b := by
  rcases hsa : a.score with _ | p
  · exact absurd hsa ha
  rcases hsb : b.score with _ | q
  · exact absurd hsb hb
  have hpv : scoreVal a = p := by simp [scoreVal, hsa]
  have hqv : scoreVal b = q := by simp [scoreVal, hsb]
  rw [hpv, hqv] at h
  simp only [scoreLe, hsa, hsb, Score.pcmp, Option.some.injEq]
  intro hgt
  exact absurd (compare_gt_iff_gt.mp hgt) (not_lt.mpr h)

theorem filter_score_val_eq {l : List Snippet}
    (hnn : ∀ x ∈ l, x.score ≠ Score.nan) (q : ℚ) :
    l.filter (fun x => decide (x.score = Score.val q)) =
      l.filter (fun x => decide (scoreVal x = q)) := by
  apply List.filter_congr
  intro x hx
  rcases hs : x.score with _ | p
  · exact absurd hs (hnn x hx)
  · simp [scoreVal, hs]

theorem sorted_of_length_le_one {α : Type _} {R : α → α → Prop} {l : List α}
    (h : l.length ≤ 1) : List.Sorted R l := by
  rcases l with _ | ⟨x, _ | ⟨y, ys⟩⟩
  · exact List.sorted_nil
  · exact List.sorted_singleton x
  · simp at h

/-- A sort of fewer than two elements performs no comparison and returns
its input. -/
theorem sortByOpt_short {α : Type _} {cmp : α → α → Option Ordering}
    {l r : List α} (h : sortByOpt cmp l = some r) (hl : l.length ≤ 1) :
    r = l := by
  rcases l with _ | ⟨x, _ | ⟨y, ys⟩⟩
  · simp [sortByOpt] at h
    exact h
  · simp [sortByOpt, insertOpt] at h
    exact h.symm
  · simp at hl

/-!
## Concrete data for scenarios, counterexamples and witnesses
-/

/-- Scenario passage (lines 1-10, score 0.9) in file `a.py`. -/
def exPassage1 : Snippet :=
  { lang := "Python", repo_name := "repo", repo_ref := "ref",
    relative_path := "a.py", text := "one", start_line := 1, end_line := 10,
    start_byte := 0, end_byte := 0, score := Score.val 0.9 }

/-- Scenario passage (lines 5-15, score 0.8) in file `a.py`. -/
def exPassage2 : Snippet :=
  { lang := "Python", repo_name := "repo", repo_ref := "ref",
    relative_path := "a.py", text := "two", start_line := 5, end_line := 15,
    start_byte := 0, end_byte := 0, score := Score.val 0.8 }

/-- Scenario passage (lines 20-30, score 0.95) in file `a.py`. -/
def exPassage3 : Snippet :=
  { lang := "Python", repo_name := "repo", repo_ref := "ref",
    relative_path := "a.py", text := "three", start_line := 20, end_line := 30,
    start_byte := 0, end_byte := 0, score := Score.val 0.95 }

/-- A benign oracle assignment: the selector replies "0", the explainer
answers, repo-ref parsing and the file fetch succeed (empty file), and the
tokenizer reports 3000 tokens (so the growth loop stops after its first
iteration). -/
def oracleA : Oracles :=
  { selectCall := fun _ _ => ApiResult.okBody "0",
    explainCall := fun _ _ => ApiResult.okBody "because",
    repoRefErr := fun _ => none,
    byPath := fun _ _ => Except.ok [],
    tokenCount := fun _ => 3000 }

/-- A search result whose payload is missing every required field. -/
def badResult : SearchResult :=
  { payload := [], score := Score.val 1 }

/-- A NaN-scored decoded snippet (lines 1-10 of `a.py`). -/
def nanSnippet : Snippet :=
  { lang := "py", repo_name := "r", repo_ref := "rr", relative_path := "a.py",
    text := "t", start_line := 1, end_line := 10, start_byte := 0,
    end_byte := 0, score := Score.nan }

/-- The backend payload decoding to `nanSnippet`. -/
def nanResult : SearchResult :=
  { payload := [
      ("lang", QValue.mk (some (QKind.stringValue "py"))),
      ("repo_name", QValue.mk (some (QKind.stringValue "r"))),
      ("repo_ref", QValue.mk (some (QKind.stringValue "rr"))),
      ("relative_path", QValue.mk (some (QKind.stringValue "a.py"))),
      ("snippet", QValue.mk (some (QKind.stringValue "t"))),
      ("start_line", QValue.mk (some (QKind.stringValue "1"))),
      ("end_line", QValue.mk (some (QKind.stringValue "10"))),
      ("start_byte", QValue.mk (some (QKind.stringValue "0"))),
      ("end_byte", QValue.mk (some (QKind.stringValue "0")))],
    score := Score.nan }

/-- A well-scored decoded snippet (lines 20-30 of `a.py`), not overlapping
`nanSnippet`. -/
def goodSnippet : Snippet :=
  { lang := "py", repo_name := "r", repo_ref := "rr", relative_path := "a.py",
    text := "t", start_line := 20, end_line := 30, start_byte := 0,
    end_byte := 0, score := Score.val 1 }

/-- The backend payload decoding to `goodSnippet`. -/
def goodResult : SearchResult :=
  { payload := [
      ("lang", QValue.mk (some (QKind.stringValue "py"))),
      ("repo_name", QValue.mk (some (QKind.stringValue "r"))),
      ("repo_ref", QValue.mk (some (QKind.stringValue "rr"))),
      ("relative_path", QValue.mk (some (QKind.stringValue "a.py"))),
      ("snippet", QValue.mk (some (QKind.stringValue "t"))),
      ("start_line", QValue.mk (some (QKind.stringValue "20"))),
      ("end_line", QValue.mk (some (QKind.stringValue "30"))),
      ("start_byte", QValue.mk (some (QKind.stringValue "0"))),
      ("end_byte", QValue.mk (some (QKind.stringValue "0")))],
    score := Score.val 1 }

/-- The passage used by the C8 witness: bytes 1..1 of a 3-byte file. -/
def growWitnessSnippet : Snippet :=
  { lang := "py", repo_name := "r", repo_ref := "rr", relative_path := "a.py",
    text := "t", start_line := 1, end_line := 1, start_byte := 1,
    end_byte := 1, score := Score.val 1 }

/-- Non-overlapping passage (lines 1-2) with an integral score. -/
def nanFreeLow : Snippet :=
  { lang := "py", repo_name := "r", repo_ref := "rr", relative_path := "a.py",
    text := "t", start_line := 1, end_line := 2, start_byte := 0,
    end_byte := 0, score := Score.val 1 }

/-- Non-overlapping passage (lines 5-6) with an integral score. -/
def nanFreeHigh : Snippet :=
  { lang := "py", repo_name := "r", repo_ref := "rr", relative_path := "a.py",
    text := "t", start_line := 5, end_line := 6, start_byte := 0,
    end_byte := 0, score := Score.val 2 }

/-!
## The claims
-/

/-- C1 (code_bug evaluation): with the snippet sequence empty after ranking
and truncation, the handler does not return the "no snippets" internal
error and does not abort: the selection stage runs (the trace is
`[selection]`), and the request fails only afterwards, with the
out-of-bounds internal error produced by indexing the empty list with the
selector response.  Lines 191-193 build `super::error(...)` but discard the
value instead of returning it. -/
theorem claim1_empty_check_discarded :
    handle [] oracleA "u" "q" =
      (HandlerResult.err ErrKind.internal "answer-api returned out-of-bounds index",
        [Stage.selection]) := by
  decide

/-- C2 (amended): the growth loop starts at window size 40, increases by 10
per iteration, always recomputes `grow` from the unmodified snippet
offsets, and stops after the first iteration whose token count exceeds
2000 or whose window size exceeds 100 — so the final call to `grow` can be
made at window size 110 (when the token count never exceeds 2000), and
every call is at a size in `{40, 50, …, 110}`; no call exceeds 110. -/
theorem claim2_growth_loop (tok : String → Nat) (content : List Char)
    (snippet : Snippet) :
    ∃ n, 1 ≤ n ∧ n ≤ 8 ∧
      (growLoop tok content snippet).1 = List.range' 40 n 10 ∧
      (∀ sz ∈ (growLoop tok content snippet).1, 40 ≤ sz ∧ sz ≤ 110) ∧
      (growLoop tok content snippet).2 = grow content snippet (30 + 10 * n) ∧
      (2000 < tok (grow content snippet (30 + 10 * n)) ∨ 100 < 30 + 10 * n) ∧
      ∀ i, i + 1 < n →
        ¬(2000 < tok (grow content snippet (40 + 10 * i)) ∨ 100 < 40 + 10 * i) := by
  unfold growLoop
  obtain ⟨n, hn1, hnb, hsz, htx, hstop, hbefore⟩ :=
    growLoopAux_spec tok content snippet 71 40 (by omega) (by omega)
  have h40 : 40 + 10 * (n - 1) = 30 + 10 * n := by omega
  refine ⟨n, hn1, by omega, hsz, ?_, ?_, ?_, hbefore⟩
  · intro sz hsz2
    rw [hsz] at hsz2
    obtain ⟨i, hi, rfl⟩ := List.mem_range'.mp hsz2
    omega
  · rw [htx, h40]
  · rw [← h40]
    exact hstop

/-- C2 counterexample: with a tokenizer that always reports 0 tokens, the
loop calls `grow` at window size 110 — the claim "no call to grow is made
with a window size greater than 100" is false. -/
theorem claim2_counterexample :
    110 ∈ (growLoop (fun _ => 0) [] default).1 := by
  unfold growLoop
  obtain ⟨n, hn1, hnb, hsz, htx, hstop, hbefore⟩ :=
    growLoopAux_spec (fun _ => 0) [] default 71 40 (by omega) (by omega)
  have hn8 : n = 8 := by
    rcases hstop with h | h
    · norm_num at h
    · omega
  subst hn8
  rw [hsz]
  decide

/-- C3 (amended): a search result whose decode fails (missing metadata
field or failed numeric parse) makes the whole handler panic before any
pipeline stage runs — the passage is not skipped and the request produces
neither an answer nor an error response. -/
theorem claim3_decode_panic (rs1 rs2 : List SearchResult) (r : SearchResult)
    (o : Oracles) (u q : String) (hr : decodeResult r = none) :
    handle (rs1 ++ r :: rs2) o u q = (HandlerResult.panic, []) := by
  unfold handle
  rw [mapMOpt_eq_none_of_mem rs1 rs2 hr]

/-- C3 counterexample: a payload with every field missing makes the handler
panic; no error response of any kind is returned to the caller, refuting
"propagated to the caller as an internal error". -/
theorem claim3_counterexample :
    (handle [badResult] oracleA "u" "q").1 = HandlerResult.panic ∧
    HandlerResult.isErr (handle [badResult] oracleA "u" "q").1 = false := by
  decide

/-- C3 witness: the amended claim applied to the concrete malformed
payload. -/
theorem claim3_witness :
    handle [badResult] oracleA "u" "q" = (HandlerResult.panic, []) :=
  claim3_decode_panic [] [] badResult oracleA "u" "q" (by decide)

/-- C4: the imperative overlap resolver (end-line sort, index-bookkeeping
greedy scan, reversed removal, score sort) equals the declarative
description — keep the first, keep each subsequent passage iff its start
line strictly exceeds the end line of the most recently kept one, then
sort the kept subset ascending by score; and on the scenario passages
(1-10, 0.9), (5-15, 0.8), (20-30, 0.95) it keeps (1-10) and (20-30) (in
ascending score order) and drops (5-15). -/
theorem claim4_overlap_resolver :
    (∀ s t : List Snippet, sortByOpt cmpEnd s = some t →
      dedupVec s = sortByOpt cmpScore (greedyKeep t)) ∧
    dedupVec [exPassage1, exPassage2, exPassage3] =
      some [exPassage1, exPassage3] := by
  constructor
  · intro s t ht
    rw [dedupVec_eq_greedy, ht, Option.some_bind]
  · have hc : Score.pcmp (Score.val 0.9) (Score.val 0.95) = some Ordering.lt := by
      simp [Score.pcmp, compare_lt_iff_lt]
      norm_num
    have hn : forall a b : Nat, a < b -> compare a b = Ordering.lt :=
      fun a b h => compare_lt_iff_lt.mpr h
    simp [dedupVec, sortByOpt, insertOpt, cmpEnd, cmpScore, exPassage1,
      exPassage2, exPassage3, overlapFold, overlapStep, removeRejected,
      scanRej, hc, hn 15 30 (by norm_num), hn 10 15 (by norm_num),
      List.eraseIdx, List.range']

/-- C5: for a valid selection index, the response assembler swaps exactly
positions `i` and 0 of the ranked list (everything else unmoved, length
preserved) and the payload selection index is the constant 0. -/
theorem claim5_swap_invariant (l : List Snippet) (i : Nat) (ans uid : String)
    (hi : i < l.length) :
    (assemble l i ans uid).snippets[0]? = l[i]? ∧
    (assemble l i ans uid).snippets[i]? = l[0]? ∧
    (∀ j, j ≠ 0 → j ≠ i → (assemble l i ans uid).snippets[j]? = l[j]?) ∧
    (assemble l i ans uid).snippets.length = l.length ∧
    (assemble l i ans uid).selection.data.index = 0 := by
  have h0 : 0 < l.length := Nat.lt_of_le_of_lt (Nat.zero_le i) hi
  have hgetDi : l.getD i default = l[i] := getD_eq_getElem_of_lt l default hi
  have hgetD0 : l.getD 0 default = l[0] := getD_eq_getElem_of_lt l default h0
  unfold assemble swapVec
  simp only []
  refine ⟨?_, ?_, ?_, ?_, trivial⟩
  · rw [List.getElem?_set_self (by rw [List.length_set]; exact h0)]
    rw [hgetDi, List.getElem?_eq_getElem hi]
  · by_cases hI : i = 0
    · subst hI
      rw [List.getElem?_set_self (by rw [List.length_set]; exact h0)]
      rw [hgetD0, List.getElem?_eq_getElem h0]
    · rw [List.getElem?_set_ne (fun h => hI h.symm)]
      rw [List.getElem?_set_self hi]
      rw [hgetD0, List.getElem?_eq_getElem h0]
  · intro j hj0 hji
    rw [List.getElem?_set_ne (fun h => hj0 h.symm),
      List.getElem?_set_ne (fun h => hji h.symm)]
  · rw [List.length_set, List.length_set]

/-- C5 witness: the swap invariant at the concrete ranked list
`[exPassage1, exPassage2, exPassage3]` and selection index 1. -/
theorem claim5_witness :
    (assemble [exPassage1, exPassage2, exPassage3] 1 "ans" "uid").snippets[0]? =
      [exPassage1, exPassage2, exPassage3][1]? ∧
    (assemble [exPassage1, exPassage2, exPassage3] 1 "ans" "uid").snippets[1]? =
      [exPassage1, exPassage2, exPassage3][0]? ∧
    (∀ j, j ≠ 0 → j ≠ 1 →
      (assemble [exPassage1, exPassage2, exPassage3] 1 "ans" "uid").snippets[j]? =
        [exPassage1, exPassage2, exPassage3][j]?) ∧
    (assemble [exPassage1, exPassage2, exPassage3] 1 "ans" "uid").snippets.length =
      ([exPassage1, exPassage2, exPassage3] : List Snippet).length ∧
    (assemble [exPassage1, exPassage2, exPassage3] 1 "ans" "uid").selection.data.index = 0 :=
  claim5_swap_invariant [exPassage1, exPassage2, exPassage3] 1 "ans" "uid"
    (by decide)

/-- C6: the global ranker flattens the kept per-file passages, sorts the
flattened sequence ascending by score with a stable sort (elements of any
fixed score keep their relative order from the flattened input), and the
handler keeps the prefix of at most `SNIPPET_COUNT = 15` elements. -/
theorem claim6_rank_truncate (groups gs : List (List Snippet))
    (full : List Snippet)
    (_hmap : mapMOpt dedupVec groups = some gs)
    (hsort : sortByOpt cmpScore gs.flatten = some full) :
    (full.take SNIPPET_COUNT).length ≤ 15 ∧
    List.Sorted scoreLe full ∧
    ∀ q : ℚ, full.filter (fun x => decide (x.score = Score.val q)) =
      gs.flatten.filter (fun x => decide (x.score = Score.val q)) := by
  rcases Nat.lt_or_ge gs.flatten.length 2 with h2 | h2
  · -- at most one element: the sort performs no comparison and is the identity
    have hfull : full = gs.flatten :=
      sortByOpt_short hsort (by omega)
    rw [hfull]
    exact ⟨List.length_take_le _ _,
      sorted_of_length_le_one (by omega), fun q => rfl⟩
  · -- at least two elements: no score is NaN, else the sort would panic
    have hnn : ∀ x ∈ gs.flatten, x.score ≠ Score.nan := by
      intro x hx hnan
      have hnone := (sortByOpt_cmpScore_eq_none_iff gs.flatten).mpr
        ⟨⟨x, hx, hnan⟩, h2⟩
      rw [hsort] at hnone
      exact absurd hnone (by simp)
    have hcong := sortByOpt_congr (cmpScore_eq_keyCmp_of_no_nan hnn)
    rw [hcong] at hsort
    have hperm := sortByOpt_perm hsort
    refine ⟨List.length_take_le _ _, ?_, ?_⟩
    · have hsorted := sortByOpt_keyCmp_sorted scoreVal hsort
      refine List.Pairwise.imp_of_mem ?_ hsorted
      intro a b ha hb hr
      exact scoreLe_of_scoreVal_le (hnn a (hperm.subset ha))
        (hnn b (hperm.subset hb)) hr
    · intro q
      have hstab := sortByOpt_keyCmp_filter scoreVal q hsort
      have hfullnn : ∀ x ∈ full, x.score ≠ Score.nan :=
        fun x hx => hnn x (hperm.subset hx)
      rw [filter_score_val_eq hfullnn q, filter_score_val_eq hnn q]
      exact hstab

/-- C6 witness: the ranker conclusion at the one-group, one-passage
pipeline state. -/
theorem claim6_witness :
    (([goodSnippet] : List Snippet).take SNIPPET_COUNT).length ≤ 15 ∧
    List.Sorted scoreLe [goodSnippet] ∧
    ∀ q : ℚ, ([goodSnippet] : List Snippet).filter
        (fun x => decide (x.score = Score.val q)) =
      ([[goodSnippet]] : List (List Snippet)).flatten.filter
        (fun x => decide (x.score = Score.val q)) :=
  claim6_rank_truncate [[goodSnippet]] [[goodSnippet]] [goodSnippet]
    (by decide) (by decide)

/-- C7: for every explanation prompt, the completion budget is
`4096 - tokens_used` floored at zero (here stated over the integers with an
explicit floor), the warning fires exactly when the prompt uses 4096 tokens
or more, the request is sent regardless of the warning, and the
`max_tokens` value actually sent is the budget clamped into `[1, 500]`. -/
theorem claim7_explain_budget (tok : String → Nat)
    (send : String → Nat → ApiResult) (prompt : String) :
    1 ≤ (explain_snippet tok send prompt).max_tokens ∧
    (explain_snippet tok send prompt).max_tokens ≤ 500 ∧
    (explain_snippet tok send prompt).max_tokens =
      natClamp (Int.toNat ((4096 : Int) - (tok prompt : Int))) 1 500 ∧
    ((explain_snippet tok send prompt).warned = true ↔ 4096 ≤ tok prompt) ∧
    (explain_snippet tok send prompt).response =
      send prompt (explain_snippet tok send prompt).max_tokens := by
  unfold explain_snippet
  simp only []
  have htn : Int.toNat ((4096 : Int) - (tok prompt : Int)) = 4096 - tok prompt := by
    omega
  refine ⟨?_, ?_, ?_, ?_, trivial⟩
  · unfold natClamp
    repeat' split
    all_goals omega
  · unfold natClamp
    repeat' split
    all_goals omega
  · rw [htn]
  · simp [Nat.sub_eq_zero_iff_le]

/-- C8: under the precondition that the selected snippet byte offsets are
valid (`start_byte ≤ end_byte ≤ len`), the range `grow` slices satisfies
`0 ≤ new_start ≤ new_end ≤ len`; the start is clamped to 0 when fewer than
`size` newlines precede `start_byte`, the end is clamped to `len` when
fewer than `size` newlines follow `end_byte`, and `grow` returns exactly
the slice between the two bytes. -/
theorem claim8_grow_bounds (content : List Char) (snippet : Snippet)
    (size : Nat) (h1 : snippet.start_byte ≤ snippet.end_byte)
    (h2 : snippet.end_byte ≤ content.length) :
    (growRange content snippet size).1 ≤ (growRange content snippet size).2 ∧
    (growRange content snippet size).2 ≤ content.length ∧
    ((nlIdxs (content.take snippet.start_byte)).length < size →
      (growRange content snippet size).1 = 0) ∧
    ((nlIdxs (content.drop snippet.end_byte)).length < size →
      (growRange content snippet size).2 = content.length) ∧
    grow content snippet size =
      String.mk ((content.take (growRange content snippet size).2).drop
        (growRange content snippet size).1) := by
  have hstart : (growRange content snippet size).1 = 0 ∨
      (growRange content snippet size).1 < snippet.start_byte := by
    unfold growRange
    simp only []
    cases hg : ((nlIdxs (content.take snippet.start_byte)).reverse)[size]? with
    | none => left; rfl
    | some i =>
      right
      have hmem : i ∈ nlIdxs (content.take snippet.start_byte) :=
        List.mem_reverse.mp (List.getElem?_mem hg)
      have hlt := mem_nlIdxs_lt hmem
      have hlen : (content.take snippet.start_byte).length ≤ snippet.start_byte := by
        simp [List.length_take]
      show i < snippet.start_byte
      omega
  have hend : snippet.end_byte ≤ (growRange content snippet size).2 ∧
      (growRange content snippet size).2 ≤ content.length := by
    unfold growRange
    simp only []
    cases hg : (nlIdxs (content.drop snippet.end_byte))[size]? with
    | none => simpa using h2
    | some j =>
      have hj : j < (content.drop snippet.end_byte).length :=
        mem_nlIdxs_lt (List.getElem?_mem hg)
      rw [List.length_drop] at hj
      show snippet.end_byte ≤ j + snippet.end_byte ∧
        j + snippet.end_byte ≤ content.length
      omega
  refine ⟨?_, hend.2, ?_, ?_, rfl⟩
  · rcases hstart with h | h
    · rw [h]; exact Nat.zero_le _
    · omega
  · intro hfew
    unfold growRange
    simp only []
    have hnone : ((nlIdxs (content.take snippet.start_byte)).reverse)[size]? = none := by
      apply List.getElem?_eq_none
      rw [List.length_reverse]
      omega
    rw [hnone]
    rfl
  · intro hfew
    unfold growRange
    simp only []
    have hnone : (nlIdxs (content.drop snippet.end_byte))[size]? = none := by
      apply List.getElem?_eq_none
      omega
    rw [hnone]
    rfl

/-- C8 witness: the bounds at the file `"a\nb"` with the passage occupying
byte 1 and window size 2 (fewer than 2 newlines on either side, so both
ends clamp). -/
theorem claim8_witness :
    (growRange [Char.ofNat 97, Char.ofNat 10, Char.ofNat 98] growWitnessSnippet 2).1 ≤
      (growRange [Char.ofNat 97, Char.ofNat 10, Char.ofNat 98] growWitnessSnippet 2).2 ∧
    (growRange [Char.ofNat 97, Char.ofNat 10, Char.ofNat 98] growWitnessSnippet 2).2 ≤
      ([Char.ofNat 97, Char.ofNat 10, Char.ofNat 98] : List Char).length ∧
    ((nlIdxs (([Char.ofNat 97, Char.ofNat 10, Char.ofNat 98] : List Char).take
        growWitnessSnippet.start_byte)).length < 2 →
      (growRange [Char.ofNat 97, Char.ofNat 10, Char.ofNat 98] growWitnessSnippet 2).1 = 0) ∧
    ((nlIdxs (([Char.ofNat 97, Char.ofNat 10, Char.ofNat 98] : List Char).drop
        growWitnessSnippet.end_byte)).length < 2 →
      (growRange [Char.ofNat 97, Char.ofNat 10, Char.ofNat 98] growWitnessSnippet 2).2 =
        ([Char.ofNat 97, Char.ofNat 10, Char.ofNat 98] : List Char).length) ∧
    grow [Char.ofNat 97, Char.ofNat 10, Char.ofNat 98] growWitnessSnippet 2 =
      String.mk ((([Char.ofNat 97, Char.ofNat 10, Char.ofNat 98] : List Char).take
        (growRange [Char.ofNat 97, Char.ofNat 10, Char.ofNat 98] growWitnessSnippet 2).2).drop
        (growRange [Char.ofNat 97, Char.ofNat 10, Char.ofNat 98] growWitnessSnippet 2).1) :=
  claim8_grow_bounds [Char.ofNat 97, Char.ofNat 10, Char.ofNat 98]
    growWitnessSnippet 2 (by decide) (by decide)

/-- C9: a file group whose passages are pairwise non-overlapping (and whose
line ranges are consistent, with non-NaN scores so the sorts do not panic)
passes through the overlap resolver intact: the output is a permutation of
the input. -/
theorem claim9_non_overlapping_kept (s : List Snippet)
    (hse : ∀ a ∈ s, a.start_line ≤ a.end_line)
    (hdisj : s.Pairwise
      (fun a b => a.end_line < b.start_line ∨ b.end_line < a.start_line))
    (hnn : ∀ a ∈ s, a.score ≠ Score.nan) :
    ∃ r, dedupVec s = some r ∧ r.Perm s := by
  obtain ⟨t, ht⟩ := sortByOpt_keyCmp_isSome (fun x : Snippet => x.end_line) s
  have htc : sortByOpt cmpEnd s = some t := by
    rw [cmpEnd_eq_keyCmp]
    exact ht
  have hperm : t.Perm s := sortByOpt_perm ht
  have hsorted : List.Sorted (fun a b : Snippet => a.end_line ≤ b.end_line) t :=
    sortByOpt_keyCmp_sorted _ ht
  have hdisjt : t.Pairwise
      (fun a b => a.end_line < b.start_line ∨ b.end_line < a.start_line) :=
    (List.Perm.pairwise_iff (fun h => h.symm) hperm).mpr hdisj
  have hgk : greedyKeep t = t := by
    cases t with
    | nil => rfl
    | cons x xs =>
      show x :: greedyGo x xs = x :: xs
      rw [greedyGo_keep_all xs x (fun z hz => hse z (hperm.subset hz))
        hsorted hdisjt]
  rw [dedupVec_eq_greedy, htc, Option.some_bind, hgk]
  obtain ⟨r, hr⟩ := sortByOpt_cmpScore_isSome_of_no_nan
    (fun a ha => hnn a (hperm.subset ha))
  exact ⟨r, hr, (sortByOpt_perm hr).trans hperm⟩

/-- C9 witness: two non-overlapping passages both come through. -/
theorem claim9_witness :
    ∃ r, dedupVec [nanFreeLow, nanFreeHigh] = some r ∧
      r.Perm [nanFreeLow, nanFreeHigh] :=
  claim9_non_overlapping_kept [nanFreeLow, nanFreeHigh]
    (by decide) (by decide) (by decide)

/-- C10 (amended): with every payload decodable, the handler panics exactly
when a NaN score is compared by one of the two score sorts — that is, when
some file group keeps (after the end-line sort and greedy scan) at least
two passages among which a NaN score appears, or the flattened deduped
sequence has at least two elements and contains a NaN score.  A lone NaN
passage is never compared and flows through without a panic. -/
theorem claim10_nan_panic (results : List SearchResult)
    (pairs : List (String × Snippet)) (o : Oracles) (u q : String)
    (hdec : mapMOpt decodeResult results = some pairs) :
    ((handle results o u q).1 = HandlerResult.panic ↔
      (∃ g ∈ (groupByFile pairs).map Prod.snd, ∃ t,
        sortByOpt cmpEnd g = some t ∧
        (∃ x ∈ greedyKeep t, x.score = Score.nan) ∧
        2 ≤ (greedyKeep t).length) ∨
      (∃ gs, mapMOpt dedupVec ((groupByFile pairs).map Prod.snd) = some gs ∧
        (∃ x ∈ gs.flatten, x.score = Score.nan) ∧ 2 ≤ gs.flatten.length)) := by
  rw [handle_panic_iff o u q hdec]
  refine or_congr ?_ ?_
  · rw [mapMOpt_eq_none_iff]
    constructor
    · rintro ⟨g, hg, hnone⟩
      obtain ⟨t, ht⟩ := sortByOpt_keyCmp_isSome (fun x : Snippet => x.end_line) g
      have htc : sortByOpt cmpEnd g = some t := by
        rw [cmpEnd_eq_keyCmp]
        exact ht
      exact ⟨g, hg, t, htc, (dedupVec_eq_none_iff htc).mp hnone⟩
    · rintro ⟨g, hg, t, htc, hcond⟩
      exact ⟨g, hg, (dedupVec_eq_none_iff htc).mpr hcond⟩
  · refine exists_congr fun gs => and_congr_right fun _ => ?_
    exact sortByOpt_cmpScore_eq_none_iff gs.flatten

/-- C10 counterexample: a single NaN-scored passage is alone in its file
group and alone in the flattened sequence, so neither score sort ever
invokes a comparison: the handler does not panic, refuting "if any snippet
score … is NaN, the handler panics". -/
theorem claim10_counterexample :
    decodeResult nanResult = some ("a.py", nanSnippet) ∧
    nanSnippet.score = Score.nan ∧
    (handle [nanResult] oracleA "u" "q").1 ≠ HandlerResult.panic := by
  refine ⟨by decide, rfl, ?_⟩
  have h1 : mapMOpt decodeResult [nanResult] = some [("a.py", nanSnippet)] := by
    decide
  have h2 : mapMOpt dedupVec
      ((groupByFile [("a.py", nanSnippet)]).map Prod.snd) =
      some [[nanSnippet]] := by
    decide
  have h3 : sortByOpt cmpScore ([[nanSnippet]] : List (List Snippet)).flatten =
      some [nanSnippet] := by
    decide
  unfold handle
  simp only [h1, h2, h3]
  exact handleAfterRanking_ne_panic oracleA "u" "q"
    ([nanSnippet].take SNIPPET_COUNT)

/-- C10 witness: two decodable passages in one file, not overlapping, one
with a NaN score — the kept subset has two elements containing a NaN, and
the handler panics, as the amended characterisation states. -/
theorem claim10_witness :
    (handle [nanResult, goodResult] oracleA "u" "q").1 = HandlerResult.panic := by
  have h := claim10_nan_panic [nanResult, goodResult]
    [("a.py", nanSnippet), ("a.py", goodSnippet)] oracleA "u" "q" (by decide)
  rw [h]
  refine Or.inl ⟨[nanSnippet, goodSnippet], by decide, [nanSnippet, goodSnippet],
    by decide, ⟨nanSnippet, by decide, rfl⟩, by decide⟩

end BloopAnswer
